import Mathlib

/-!
Shallow embedding of the s3-log write-ahead-log driver (`s3_wal.go`) and
proofs of its specified properties.

Bytes are modelled as `List Nat` (each entry a byte value), Go strings as
`List Char`.  Machine `uint64` arithmetic is `Nat` with explicit `% 2^64`
where Go would wrap.  The S3 collaborator (PutObject with If-None-Match,
GetObject, paginated ListObjectsV2) is modelled as explicit state passing,
with a concrete association-list store instantiating it.
-/

deriving instance DecidableEq for Except

namespace S3Log

abbrev Bytes := List Nat

abbrev Key := List Char

/-- Big-endian 8-byte encoding of a `uint64`, as written by
`binary.Write(buf, binary.BigEndian, offset)`. -/
def uint64BE (n : Nat) : Bytes :=
  [n / 72057594037927936 % 256, n / 281474976710656 % 256,
   n / 1099511627776 % 256, n / 4294967296 % 256,
   n / 16777216 % 256, n / 65536 % 256, n / 256 % 256, n % 256]

/-- Big-endian read of a byte list as an unsigned integer, as done by
`binary.Read(..., binary.BigEndian, &storedOffset)` on 8 bytes. -/
def decodeBE (bs : Bytes) : Nat :=
  bs.foldl (fun a b => a * 256 + b) 0

/-! ### SHA-256 (model of Go `crypto/sha256`, FIPS 180-4) -/

def w32 (x : Nat) : Nat := x % 4294967296

def rotr (n x : Nat) : Nat := w32 ((x >>> n) ||| (x <<< (32 - n)))

def bigSigma0 (x : Nat) : Nat := rotr 2 x ^^^ rotr 13 x ^^^ rotr 22 x

def bigSigma1 (x : Nat) : Nat := rotr 6 x ^^^ rotr 11 x ^^^ rotr 25 x

def smallSigma0 (x : Nat) : Nat := rotr 7 x ^^^ rotr 18 x ^^^ (x >>> 3)

def smallSigma1 (x : Nat) : Nat := rotr 17 x ^^^ rotr 19 x ^^^ (x >>> 10)

def chV (e f g : Nat) : Nat := (e &&& f) ^^^ ((e ^^^ 4294967295) &&& g)

def majV (a b c : Nat) : Nat := (a &&& b) ^^^ (a &&& c) ^^^ (b &&& c)

/-- The eight 32-bit words of SHA-256 working state. -/
structure H8 where
  a : Nat
  b : Nat
  c : Nat
  d : Nat
  e : Nat
  f : Nat
  g : Nat
  h : Nat
  deriving DecidableEq

def kConst : List Nat :=
  [1116352408, 1899447441, 3049323471, 3921009573,
   961987163, 1508970993, 2453635748, 2870763221,
   3624381080, 310598401, 607225278, 1426881987,
   1925078388, 2162078206, 2614888103, 3248222580,
   3835390401, 4022224774, 264347078, 604807628,
   770255983, 1249150122, 1555081692, 1996064986,
   2554220882, 2821834349, 2952996808, 3210313671,
   3336571891, 3584528711, 113926993, 338241895,
   666307205, 773529912, 1294757372, 1396182291,
   1695183700, 1986661051, 2177026350, 2456956037,
   2730485921, 2820302411, 3259730800, 3345764771,
   3516065817, 3600352804, 4094571909, 275423344,
   430227734, 506948616, 659060556, 883997877,
   958139571, 1322822218, 1537002063, 1747873779,
   1955562222, 2024104815, 2227730452, 2361852424,
   2428436474, 2756734187, 3204031479, 3329325298]

def initH : H8 :=
  ⟨1779033703, 3144134277, 1013904242, 2773480762,
   1359893119, 2600822924, 528734635, 1541459225⟩

/-- Group a byte list into big-endian 32-bit words. -/
def toWords32 : Bytes → List Nat
  | b0 :: b1 :: b2 :: b3 :: rest =>
      w32 (b0 * 16777216 + b1 * 65536 + b2 * 256 + b3) :: toWords32 rest
  | _ => []

/-- One message-schedule extension step: appends `W[i]` for `i = ws.length`. -/
def extendStep (ws : List Nat) : List Nat :=
  ws ++ [w32 (ws.getD (ws.length - 16) 0 + smallSigma0 (ws.getD (ws.length - 15) 0) +
              ws.getD (ws.length - 7) 0 + smallSigma1 (ws.getD (ws.length - 2) 0))]

def schedule (ws : List Nat) : List Nat :=
  (List.range 48).foldl (fun acc _ => extendStep acc) ws

def shaStep (s : H8) (kw : Nat × Nat) : H8 :=
  let t1 := w32 (s.h + bigSigma1 s.e + chV s.e s.f s.g + kw.1 + kw.2)
  let t2 := w32 (bigSigma0 s.a + majV s.a s.b s.c)
  ⟨w32 (t1 + t2), s.a, s.b, s.c, w32 (s.d + t1), s.e, s.f, s.g⟩

def compress (s : H8) (block : Bytes) : H8 :=
  let t := (kConst.zip (schedule (toWords32 block))).foldl shaStep s
  ⟨w32 (s.a + t.a), w32 (s.b + t.b), w32 (s.c + t.c), w32 (s.d + t.d),
   w32 (s.e + t.e), w32 (s.f + t.f), w32 (s.g + t.g), w32 (s.h + t.h)⟩

/-- Split into 64-byte blocks; fuel-based so that the kernel can evaluate it. -/
def chunksAux : Nat → Bytes → List Bytes
  | 0, _ => []
  | _, [] => []
  | fuel + 1, x :: xs => ((x :: xs).take 64) :: chunksAux fuel ((x :: xs).drop 64)

def chunks64 (l : Bytes) : List Bytes := chunksAux l.length l

/-- SHA-256 padding: 0x80, zeros to 56 mod 64, then the bit length as 8 bytes BE. -/
def sha256pad (msg : Bytes) : Bytes :=
  msg ++ 128 :: (List.replicate ((119 - msg.length % 64) % 64) 0 ++ uint64BE (8 * msg.length))

def u32BE (n : Nat) : Bytes := [n / 16777216 % 256, n / 65536 % 256, n / 256 % 256, n % 256]

/-- SHA-256 digest of a byte sequence: 32 bytes. -/
def sha256 (msg : Bytes) : Bytes :=
  let x := (chunks64 (sha256pad msg)).foldl compress initH
  u32BE x.a ++ u32BE x.b ++ u32BE x.c ++ u32BE x.d ++
  u32BE x.e ++ u32BE x.f ++ u32BE x.g ++ u32BE x.h

/-! ### Record framing (`prepareBody`, `validateChecksum`, `validateOffset`) -/

/-- Model of `calculateChecksum`: SHA-256 of the buffer contents. -/
def calculateChecksum (buf : Bytes) : Bytes := sha256 buf

/-- Model of `prepareBody`: 8-byte big-endian offset, then the data, then
the SHA-256 checksum of everything written so far.  (The Go error branches
come from `bytes.Buffer` writes, which cannot fail.) -/
def prepareBody (offset : Nat) (data : Bytes) : Bytes :=
  let buf := uint64BE offset ++ data
  buf ++ calculateChecksum buf

/-- Model of `validateChecksum`: the stored last 32 bytes must equal the
digest recomputed over the rest. -/
def validateChecksum (data : Bytes) : Bool :=
  data.drop (data.length - 32) == calculateChecksum (data.take (data.length - 32))

/-- Model of `validateOffset`: `Except.error` is the Go `(false, err)` path
for inputs shorter than 8 bytes; otherwise compares the first 8 bytes read
big-endian against the expected offset. -/
def validateOffset (data : Bytes) (offset : Nat) : Except Unit Bool :=
  if data.length < 8 then Except.error ()
  else Except.ok (decodeBE (data.take 8) == offset)

/-- The error kinds surfaced by the driver (each a distinct
`fmt.Errorf` message in the Go source). -/
inductive WalErr where
  | putFailed
  | getFailed
  | malformed
  | offsetMismatch
  | checksumMismatch
  | listFailed
  | keyFormat
  | emptyLog
  deriving DecidableEq

/-- The validation tail of `Read` (after the object body has been fetched):
length check, offset check, checksum check, then the payload slice
`data[8 : len(data)-32]`. -/
def readValidate (data : Bytes) (offset : Nat) : Except WalErr Bytes :=
  if data.length < 40 then Except.error WalErr.malformed
  else
    match validateOffset data offset with
    | Except.error _ => Except.error WalErr.offsetMismatch
    | Except.ok false => Except.error WalErr.offsetMismatch
    | Except.ok true =>
      if validateChecksum data then Except.ok ((data.drop 8).take (data.length - 40))
      else Except.error WalErr.checksumMismatch

/-! ### Key mapper (`getObjectKey`, `getOffsetFromKey`) -/

/-- Little-endian decimal digits, fuel-based so the kernel can evaluate it;
`fuel ≥ n` always suffices. -/
def digitsLE : Nat → Nat → List Nat
  | _, 0 => []
  | 0, _ => []
  | fuel + 1, n => n % 10 :: digitsLE fuel (n / 10)

/-- The decimal digit characters of `n`, most significant first: the model
of Go `%d` formatting. -/
def decChars (n : Nat) : List Char :=
  if n = 0 then ['0']
  else ((digitsLE n n).map (fun d => Char.ofNat (48 + d))).reverse

/-- Model of `fmt.Sprintf("%020d", n)`: left-pad the decimal form with
zeros to width 20 (wider values are printed in full). -/
def sprintf020 (n : Nat) : List Char :=
  List.replicate (20 - (decChars n).length) '0' ++ decChars n

/-- Model of `getObjectKey`: `w.prefix + "/" + fmt.Sprintf("%020d", offset)`. -/
def getObjectKey (pfx : Key) (offset : Nat) : Key :=
  pfx ++ '/' :: sprintf020 offset

/-- Numeric value of a digit string (the accumulator loop of
`strconv.ParseUint`). -/
def charsToNat (s : List Char) : Nat :=
  s.foldl (fun a c => a * 10 + (c.toNat - 48)) 0

inductive ParseErr where
  | invalid
  | outOfRange
  deriving DecidableEq

/-- Model of `strconv.ParseUint(s, 10, 64)`: rejects the empty string and
any non-digit character; values `≥ 2^64` are a range error. -/
def parseUint64 (s : List Char) : Except ParseErr Nat :=
  if s.isEmpty then Except.error ParseErr.invalid
  else if s.all (fun c => c.isDigit) then
    if charsToNat s < 18446744073709551616 then Except.ok (charsToNat s)
    else Except.error ParseErr.outOfRange
  else Except.error ParseErr.invalid

/-- Model of `getOffsetFromKey`: slices `key[len(w.prefix)+1:]` and parses
it.  `none` models the Go runtime panic when the slice bound
`len(prefix)+1` exceeds `len(key)`. -/
def getOffsetFromKey (pfx : Key) (key : Key) : Option (Except ParseErr Nat) :=
  if key.length < pfx.length + 1 then none
  else some (parseUint64 (key.drop (pfx.length + 1)))

/-! ### Log driver (`S3WAL`, `Append`, `Read`, `LastRecord`)

The S3 client is modelled as explicit state of an arbitrary type `σ`
together with response functions; the driver code is translated against
that interface, and a concrete association-list store instantiates it
below. -/

/-- A stored record, as returned by `Read`. -/
structure Record where
  Offset : Nat
  Data : Bytes
  deriving DecidableEq

/-- Driver state: bucket name, namespace prefix (Go field `prefix`), and
the `length` cursor (`uint64`, so arithmetic on it wraps at `2^64`). -/
structure S3WAL where
  bucketName : Key
  pfx : Key
  length : Nat
  deriving DecidableEq

/-- Model of `NewS3WAL`: cursor initialised to 0. -/
def NewS3WAL (bucketName pfx : Key) : S3WAL :=
  ⟨bucketName, pfx, 0⟩

/-- Outcome of a conditional `PutObject` (If-None-Match: "*"): the driver
only distinguishes success from error (`AlreadyExists` and transport
failures are both just a non-nil `err`). -/
inductive PutResp where
  | ok
  | errored
  deriving DecidableEq

/-- Outcome of `GetObject` + `io.ReadAll`: a body, or any error
(`NotFound`, transport, or body-read failure). -/
inductive GetResp where
  | found (body : Bytes)
  | errored
  deriving DecidableEq

/-- Model of `Append`: computes `nextOffset = w.length + 1` (uint64),
encodes the body, issues the conditional put, and advances the cursor
only when the put succeeded. -/
def Append {σ : Type} (putF : σ → Key → Bytes → PutResp × σ) (st : σ)
    (w : S3WAL) (data : Bytes) : Except WalErr Nat × S3WAL × σ :=
  let nextOffset := (w.length + 1) % 18446744073709551616
  let buf := prepareBody nextOffset data
  match putF st (getObjectKey w.pfx nextOffset) buf with
  | (PutResp.errored, st2) => (Except.error WalErr.putFailed, w, st2)
  | (PutResp.ok, st2) => (Except.ok nextOffset, { w with length := nextOffset }, st2)

/-- Model of `Read`: fetch the object at the key for `offset`, then run
the validation tail.  The driver state `w` is returned unchanged — the Go
method never assigns to `w`. -/
def Read {σ : Type} (getF : σ → Key → GetResp × σ) (st : σ)
    (w : S3WAL) (offset : Nat) : Except WalErr Record × S3WAL × σ :=
  match getF st (getObjectKey w.pfx offset) with
  | (GetResp.errored, st2) => (Except.error WalErr.getFailed, w, st2)
  | (GetResp.found data, st2) =>
    match readValidate data offset with
    | Except.error e => (Except.error e, w, st2)
    | Except.ok d => (Except.ok ⟨offset, d⟩, w, st2)

/-- The inner key loop of `LastRecord` over one page of listed keys:
tracks the running maximum, aborts at the first key that fails to parse;
`none` propagates the slicing panic of `getOffsetFromKey`. -/
def scanKeys (pfx : Key) : List Key → Nat → Option (Except WalErr Nat)
  | [], maxOffset => some (Except.ok maxOffset)
  | k :: ks, maxOffset =>
    match getOffsetFromKey pfx k with
    | none => none
    | some (Except.error _) => some (Except.error WalErr.keyFormat)
    | some (Except.ok off) =>
        scanKeys pfx ks (if off > maxOffset then off else maxOffset)

/-- The pagination loop of `LastRecord`: each page is either a listing
error (`paginator.NextPage` failed) or a list of keys.  NOTE: the Go code
builds `ListObjectsV2Input` with only `Bucket` set — no `Prefix` filter —
so the pages contain every key of the bucket. -/
def scanPages (pfx : Key) : List (Except Unit (List Key)) → Nat → Option (Except WalErr Nat)
  | [], maxOffset => some (Except.ok maxOffset)
  | Except.error _ :: _, _ => some (Except.error WalErr.listFailed)
  | Except.ok keys :: rest, maxOffset =>
    match scanKeys pfx keys maxOffset with
    | none => none
    | some (Except.error e) => some (Except.error e)
    | some (Except.ok m) => scanPages pfx rest m

/-- Model of `LastRecord`: drain all pages tracking the maximum offset;
`maxOffset == 0` is the empty-log error; otherwise set
`w.length = maxOffset` and delegate to `Read(maxOffset)`.  `none` models
a Go panic while slicing a listed key. -/
def LastRecord {σ : Type} (getF : σ → Key → GetResp × σ)
    (pages : List (Except Unit (List Key))) (st : σ) (w : S3WAL) :
    Option (Except WalErr Record × S3WAL × σ) :=
  match scanPages w.pfx pages 0 with
  | none => none
  | some (Except.error e) => some (Except.error e, w, st)
  | some (Except.ok maxOffset) =>
    if maxOffset = 0 then some (Except.error WalErr.emptyLog, w, st)
    else some (Read getF st { w with length := maxOffset } maxOffset)

/-! ### Concrete storage collaborator

Modelled from the spec (section 6): the bucket is a finite map from keys
to bodies, `put` is conditional on absence, `get` returns the stored
body, and `list` yields every key of the bucket (matching the Go
`ListObjectsV2Input` that sets no `Prefix`). -/

abbrev Store := List (Key × Bytes)

def lookupStore (s : Store) (k : Key) : Option Bytes :=
  match s.find? (fun kv => kv.1 == k) with
  | some kv => some kv.2
  | none => none

/-- Conditional put (`If-None-Match: "*"`): fails iff the key exists. -/
def condPut (s : Store) (k : Key) (v : Bytes) : PutResp × Store :=
  match lookupStore s k with
  | some _ => (PutResp.errored, s)
  | none => (PutResp.ok, (k, v) :: s)

/-- `GetObject`: a missing key is an error (`NoSuchKey`). -/
def getOfStore (s : Store) (k : Key) : GetResp × Store :=
  match lookupStore s k with
  | some v => (GetResp.found v, s)
  | none => (GetResp.errored, s)

/-- The bucket listing as a single successful page of all keys (the Go
input sets no `Prefix`, so the listing is the whole bucket). -/
def listPagesOfStore (s : Store) : List (Except Unit (List Key)) :=
  [Except.ok (s.map (fun kv => kv.1))]

/-- `n` sequential `Append` calls against the concrete store, returning
the per-call results with the final driver and store states. -/
def appendN (st : Store) (w : S3WAL) : List Bytes → List (Except WalErr Nat) × S3WAL × Store
  | [] => ([], w, st)
  | d :: ds =>
    match Append condPut st w d with
    | (r, w2, st2) =>
      match appendN st2 w2 ds with
      | (rs, w3, st3) => (r :: rs, w3, st3)

/-! ### Basic layout lemmas -/

theorem uint64BE_length (n : Nat) : (uint64BE n).length = 8 := rfl

theorem decodeBE_uint64BE (n : Nat) (h : n < 18446744073709551616) :
    decodeBE (uint64BE n) = n := by
  simp only [decodeBE, uint64BE, List.foldl]
  omega

theorem sha256_length (msg : Bytes) : (sha256 msg).length = 32 := by
  simp [sha256, u32BE]

theorem prepareBody_length (o : Nat) (d : Bytes) :
    (prepareBody o d).length = 8 + d.length + 32 := by
  simp [prepareBody, calculateChecksum, sha256_length, uint64BE_length]
  omega

theorem prepareBody_take8 (o : Nat) (d : Bytes) :
    (prepareBody o d).take 8 = uint64BE o := by
  simp only [prepareBody, calculateChecksum, List.append_assoc]
  exact List.take_left' (uint64BE_length o)

theorem prepareBody_takeBuf (o : Nat) (d : Bytes) :
    (prepareBody o d).take (8 + d.length) = uint64BE o ++ d := by
  apply List.take_left'
  simp [uint64BE_length]

theorem prepareBody_dropChecksum (o : Nat) (d : Bytes) :
    (prepareBody o d).drop (8 + d.length) = sha256 (uint64BE o ++ d) := by
  apply List.drop_left'
  simp [uint64BE_length]

theorem prepareBody_data (o : Nat) (d : Bytes) :
    ((prepareBody o d).drop 8).take d.length = d := by
  have h1 : (prepareBody o d).drop 8 = d ++ calculateChecksum (uint64BE o ++ d) := by
    simp only [prepareBody, List.append_assoc]
    exact List.drop_left' (uint64BE_length o)
  rw [h1, List.take_left]

theorem readValidate_prepareBody (o : Nat) (d : Bytes) (h : o < 18446744073709551616) :
    readValidate (prepareBody o d) o = Except.ok d := by
  have hlen := prepareBody_length o d
  have h40 : ¬ (prepareBody o d).length < 40 := by omega
  have h8 : ¬ (prepareBody o d).length < 8 := by omega
  have hs : (prepareBody o d).length - 32 = 8 + d.length := by omega
  have hs2 : (prepareBody o d).length - 40 = d.length := by omega
  simp only [readValidate, validateOffset, validateChecksum, calculateChecksum,
    if_neg h40, if_neg h8, hs, hs2, prepareBody_take8, prepareBody_takeBuf,
    prepareBody_dropChecksum, prepareBody_data, decodeBE_uint64BE o h,
    beq_self_eq_true, ite_true]

theorem lookupStore_cons_self (st : Store) (k : Key) (v : Bytes) :
    lookupStore ((k, v) :: st) k = some v := by
  simp [lookupStore, List.find?_cons_of_pos]

theorem read_after_append (st : Store) (w : S3WAL) (d : Bytes) (n : Nat) (w2 : S3WAL)
    (st2 : Store) (h : Append condPut st w d = (Except.ok n, w2, st2)) :
    (Read getOfStore st2 w2 n).1 = Except.ok ⟨n, d⟩ := by
  have hmod : (w.length + 1) % 18446744073709551616 < 18446744073709551616 :=
    Nat.mod_lt _ (by omega)
  simp only [Append, condPut] at h
  cases hl : lookupStore st (getObjectKey w.pfx ((w.length + 1) % 18446744073709551616)) with
  | some v =>
    rw [hl] at h
    simp at h
  | none =>
    rw [hl] at h
    simp only [Prod.mk.injEq, Except.ok.injEq] at h
    obtain ⟨h1, h2, h3⟩ := h
    subst h1
    subst h2
    subst h3
    simp only [Read, getOfStore, lookupStore_cons_self]
    rw [readValidate_prepareBody _ _ hmod]

/-- C3: round-trip integrity.  For every offset representable in 64 bits and
every byte sequence (including empty), validating `prepareBody o d` against
expected offset `o` succeeds and returns exactly `d`; equivalently, a
successful `Append d` against the concrete store leaves an object that
`Read` at the returned offset decodes back to `d`. -/
theorem roundTripIntegrity :
    (∀ (o : Nat) (d : Bytes), o < 18446744073709551616 →
      readValidate (prepareBody o d) o = Except.ok d) ∧
    (∀ (st : Store) (w : S3WAL) (d : Bytes) (n : Nat) (w2 : S3WAL) (st2 : Store),
      Append condPut st w d = (Except.ok n, w2, st2) →
      (Read getOfStore st2 w2 n).1 = Except.ok ⟨n, d⟩) :=
  ⟨readValidate_prepareBody, read_after_append⟩

/-- Witness for C3 at offset 1 with payloads `[7,7]` and `[5]`. -/
theorem roundTripIntegrity_witness :
    ((1 : Nat) < 18446744073709551616 ∧
      readValidate (prepareBody 1 [7, 7]) 1 = Except.ok [7, 7]) ∧
    (Append condPut [] (NewS3WAL ['x'] ['a']) [5] =
        (Except.ok 1, ⟨['x'], ['a'], 1⟩, [(getObjectKey ['a'] 1, prepareBody 1 [5])]) ∧
      (Read getOfStore [(getObjectKey ['a'] 1, prepareBody 1 [5])] ⟨['x'], ['a'], 1⟩ 1).1 =
        Except.ok ⟨1, [5]⟩) :=
  ⟨⟨by norm_num, roundTripIntegrity.1 1 [7, 7] (by norm_num)⟩,
   ⟨by rfl, roundTripIntegrity.2 [] (NewS3WAL ['x'] ['a']) [5] 1 _ _ (by rfl)⟩⟩

/-- C5: encoded-record layout.  `prepareBody o d` has length
`8 + len d + 32`, starts with the 8-byte big-endian encoding of `o`,
continues with `d`, and ends with the 32-byte SHA-256 digest of the
preceding `8 + len d` bytes. -/
theorem encodedRecordLayout (o : Nat) (d : Bytes) :
    (prepareBody o d).length = 8 + d.length + 32 ∧
    (prepareBody o d).take 8 = uint64BE o ∧
    (o < 18446744073709551616 → decodeBE ((prepareBody o d).take 8) = o) ∧
    ((prepareBody o d).drop 8).take d.length = d ∧
    (prepareBody o d).drop (8 + d.length) =
      sha256 ((prepareBody o d).take (8 + d.length)) ∧
    (sha256 ((prepareBody o d).take (8 + d.length))).length = 32 := by
  refine ⟨prepareBody_length o d, prepareBody_take8 o d, ?_, prepareBody_data o d, ?_, ?_⟩
  · intro h
    rw [prepareBody_take8]
    exact decodeBE_uint64BE o h
  · rw [prepareBody_dropChecksum, prepareBody_takeBuf]
  · exact sha256_length _

/-- Witness for C5 at offset 3, payload `[9]`. -/
theorem encodedRecordLayout_witness :
    (3 : Nat) < 18446744073709551616 ∧ decodeBE ((prepareBody 3 [9]).take 8) = 3 :=
  ⟨by norm_num, (encodedRecordLayout 3 [9]).2.2.1 (by norm_num)⟩

/-- C6: `Read`'s validation checks run in order: a body shorter than 40
bytes is malformed; otherwise a first-8-bytes big-endian mismatch with the
expected offset is an offset-mismatch error; otherwise a digest mismatch
over the final 32 bytes is a checksum error; otherwise the payload
`b[8 : len b - 32]` is returned. -/
theorem readValidationOrder (b : Bytes) (o : Nat) :
    (b.length < 40 → readValidate b o = Except.error WalErr.malformed) ∧
    (40 ≤ b.length → decodeBE (b.take 8) ≠ o →
      readValidate b o = Except.error WalErr.offsetMismatch) ∧
    (40 ≤ b.length → decodeBE (b.take 8) = o →
      b.drop (b.length - 32) ≠ sha256 (b.take (b.length - 32)) →
      readValidate b o = Except.error WalErr.checksumMismatch) ∧
    (40 ≤ b.length → decodeBE (b.take 8) = o →
      b.drop (b.length - 32) = sha256 (b.take (b.length - 32)) →
      readValidate b o = Except.ok ((b.drop 8).take (b.length - 40))) := by
  refine ⟨?_, ?_, ?_, ?_⟩
  · intro h
    simp [readValidate, if_pos h]
  · intro h40 hne
    simp only [readValidate, validateOffset, if_neg (by omega : ¬ b.length < 40),
      if_neg (by omega : ¬ b.length < 8), beq_eq_false_iff_ne.mpr hne]
  · intro h40 heq hne
    simp only [readValidate, validateOffset, validateChecksum, calculateChecksum,
      if_neg (by omega : ¬ b.length < 40), if_neg (by omega : ¬ b.length < 8), heq,
      beq_self_eq_true, beq_eq_false_iff_ne.mpr hne]
    simp
  · intro h40 heq hcs
    simp only [readValidate, validateOffset, validateChecksum, calculateChecksum,
      if_neg (by omega : ¬ b.length < 40), if_neg (by omega : ¬ b.length < 8), heq,
      beq_self_eq_true, hcs, ite_true]

/-- Witness for C6: each of the four validation outcomes at a concrete
body. -/
theorem readValidationOrder_witness :
    (([] : Bytes).length < 40 ∧ readValidate [] 0 = Except.error WalErr.malformed) ∧
    (40 ≤ (List.replicate 40 0 : Bytes).length ∧
      decodeBE ((List.replicate 40 0 : Bytes).take 8) ≠ 1 ∧
      readValidate (List.replicate 40 0) 1 = Except.error WalErr.offsetMismatch) ∧
    (decodeBE ((List.replicate 40 0 : Bytes).take 8) = 0 ∧
      (List.replicate 40 0 : Bytes).drop (40 - 32) ≠
        sha256 ((List.replicate 40 0 : Bytes).take (40 - 32)) ∧
      readValidate (List.replicate 40 0) 0 = Except.error WalErr.checksumMismatch) ∧
    (readValidate (prepareBody 0 []) 0 = Except.ok []) :=
  ⟨⟨by decide, (readValidationOrder [] 0).1 (by decide)⟩,
   ⟨by decide, by decide,
     (readValidationOrder (List.replicate 40 0) 1).2.1 (by decide) (by decide)⟩,
   ⟨by decide, by decide,
     (readValidationOrder (List.replicate 40 0) 0).2.2.1 (by decide) (by decide) (by decide)⟩,
   (readValidationOrder (prepareBody 0 []) 0).2.2.2 (by decide) (by decide) (by decide)⟩

/-! ### Decimal formatting and parsing lemmas -/

def ofDigitsLE (l : List Nat) : Nat := l.foldr (fun d acc => d + 10 * acc) 0

theorem digitsLE_spec : ∀ (fuel n : Nat), n ≤ fuel → ofDigitsLE (digitsLE fuel n) = n := by
  intro fuel
  induction fuel with
  | zero =>
    intro n h
    interval_cases n
    rfl
  | succ f ih =>
    intro n h
    cases n with
    | zero => rfl
    | succ m =>
      have hd : (m + 1) / 10 ≤ f := by omega
      have hrec := ih ((m + 1) / 10) hd
      simp only [digitsLE, ofDigitsLE, List.foldr] at hrec ⊢
      rw [hrec]
      omega

theorem digitsLE_lt : ∀ (fuel n : Nat), ∀ d ∈ digitsLE fuel n, d < 10 := by
  intro fuel
  induction fuel with
  | zero =>
    intro n d hd
    cases n <;> simp [digitsLE] at hd
  | succ f ih =>
    intro n d hd
    cases n with
    | zero => simp [digitsLE] at hd
    | succ m =>
      simp only [digitsLE, List.mem_cons] at hd
      rcases hd with h | h
      · omega
      · exact ih _ _ h

theorem digitsLE_length_le : ∀ (fuel k n : Nat), n < 10 ^ k → (digitsLE fuel n).length ≤ k := by
  intro fuel
  induction fuel with
  | zero =>
    intro k n _
    cases n <;> simp [digitsLE]
  | succ f ih =>
    intro k n h
    cases n with
    | zero => simp [digitsLE]
    | succ m =>
      cases k with
      | zero => omega
      | succ j =>
        have hdiv : (m + 1) / 10 < 10 ^ j := by
          rw [Nat.div_lt_iff_lt_mul (by norm_num)]
          calc m + 1 < 10 ^ (j + 1) := h
          _ = 10 ^ j * 10 := by ring
        have := ih j ((m + 1) / 10) hdiv
        simp only [digitsLE, List.length_cons]
        omega


theorem charsToNat_aux (l : List Nat) (hl : ∀ d ∈ l, d < 10) (acc : Nat) :
    List.foldl (fun a c => a * 10 + (c.toNat - 48)) acc
      ((l.map (fun d => Char.ofNat (48 + d))).reverse) =
    acc * 10 ^ l.length + ofDigitsLE l := by
  induction l generalizing acc with
  | nil => simp [ofDigitsLE]
  | cons d ds ih =>
    have hd : d < 10 := hl d (List.mem_cons_self d ds)
    have hchar : (Char.ofNat (48 + d)).toNat = 48 + d := by
      interval_cases d <;> decide
    simp only [List.map_cons, List.reverse_cons, List.foldl_append, List.foldl_cons,
      List.foldl_nil]
    rw [ih (fun x hx => hl x (List.mem_cons_of_mem d hx)), hchar]
    simp only [ofDigitsLE, List.foldr, List.length_cons]
    rw [pow_succ]
    ring_nf
    omega

theorem charsToNat_decChars (n : Nat) : charsToNat (decChars n) = n := by
  by_cases h : n = 0
  · subst h
    decide
  · simp only [decChars, if_neg h, charsToNat]
    rw [charsToNat_aux _ (digitsLE_lt n n) 0]
    rw [digitsLE_spec n n le_rfl]
    ring

theorem charsToNat_replicate (j : Nat) (s : List Char) :
    charsToNat (List.replicate j '0' ++ s) = charsToNat s := by
  induction j with
  | zero => simp
  | succ m ih =>
    simpa [charsToNat, List.replicate_succ] using ih

theorem charsToNat_sprintf020 (n : Nat) : charsToNat (sprintf020 n) = n := by
  rw [sprintf020, charsToNat_replicate, charsToNat_decChars]


theorem decChars_isDigit (n : Nat) : ∀ c ∈ decChars n, c.isDigit := by
  by_cases h : n = 0
  · subst h
    decide
  · intro c hc
    simp only [decChars, if_neg h, List.mem_reverse, List.mem_map] at hc
    obtain ⟨d, hd, rfl⟩ := hc
    have := digitsLE_lt n n d hd
    interval_cases d <;> decide

theorem sprintf020_isDigit (n : Nat) : ∀ c ∈ sprintf020 n, c.isDigit := by
  intro c hc
  simp only [sprintf020, List.mem_append, List.mem_replicate] at hc
  rcases hc with ⟨_, rfl⟩ | hc
  · decide
  · exact decChars_isDigit n c hc

theorem sprintf020_length_ge (n : Nat) : 20 ≤ (sprintf020 n).length := by
  simp only [sprintf020, List.length_append, List.length_replicate]
  omega

theorem decChars_length_le (n k : Nat) (hk : 1 ≤ k) (h : n < 10 ^ k) :
    (decChars n).length ≤ k := by
  by_cases hz : n = 0
  · subst hz
    simpa [decChars] using hk
  · simp only [decChars, if_neg hz, List.length_reverse, List.length_map]
    exact digitsLE_length_le n k n h

theorem sprintf020_length (n : Nat) (h : n < 10 ^ 20) : (sprintf020 n).length = 20 := by
  have := decChars_length_le n 20 (by norm_num) h
  simp only [sprintf020, List.length_append, List.length_replicate]
  omega

theorem parseUint64_sprintf020 (n : Nat) :
    parseUint64 (sprintf020 n) =
      if n < 18446744073709551616 then Except.ok n else Except.error ParseErr.outOfRange := by
  have hne : (sprintf020 n).isEmpty = false := by
    have := sprintf020_length_ge n
    cases hs : sprintf020 n with
    | nil => rw [hs] at this; simp at this
    | cons a l => rfl
  have hall : (sprintf020 n).all (fun c => c.isDigit) = true :=
    List.all_eq_true.mpr (fun c hc => sprintf020_isDigit n c hc)
  simp only [parseUint64, hne, hall, Bool.false_eq_true, if_false, if_true,
    charsToNat_sprintf020, ite_true]

theorem getOffsetFromKey_getObjectKey (p : Key) (o : Nat) :
    getOffsetFromKey p (getObjectKey p o) = some (parseUint64 (sprintf020 o)) := by
  have h20 := sprintf020_length_ge o
  have hkey : getObjectKey p o = (p ++ ['/']) ++ sprintf020 o := by
    simp [getObjectKey]
  have hlen : (getObjectKey p o).length = p.length + 1 + (sprintf020 o).length := by
    rw [hkey]
    simp
    omega
  rw [getOffsetFromKey, if_neg (by omega), hkey,
    List.drop_left' (by simp : (p ++ ['/']).length = p.length + 1)]


theorem getObjectKey_inj (p : Key) (o1 o2 : Nat)
    (he : getObjectKey p o1 = getObjectKey p o2) : o1 = o2 := by
  have hs : sprintf020 o1 = sprintf020 o2 := by
    simpa [getObjectKey] using he
  calc o1 = charsToNat (sprintf020 o1) := (charsToNat_sprintf020 o1).symm
  _ = charsToNat (sprintf020 o2) := by rw [hs]
  _ = o2 := charsToNat_sprintf020 o2

/-! ### Claims C7, C9, C10: the key mapping -/

/-- C7 counterexample: the offset `2^64` lies in `[1, 10^20)` but does not
round-trip: `strconv.ParseUint(_, 10, 64)` rejects the 20-digit key
remainder as out of range, so `getOffsetFromKey (getObjectKey o) ≠ ok o`. -/
theorem keyMapperRangeCounterexample :
    (1 : Nat) ≤ 18446744073709551616 ∧
    (18446744073709551616 : Nat) < 10 ^ 20 ∧
    getOffsetFromKey ['a', 'b'] (getObjectKey ['a', 'b'] 18446744073709551616) =
      some (Except.error ParseErr.outOfRange) := by
  refine ⟨by norm_num, by norm_num, ?_⟩
  rw [getOffsetFromKey_getObjectKey, parseUint64_sprintf020]
  norm_num

/-- C7 (amended): the key has the stated `prefix ++ "/" ++ zero-pad-20`
shape and is injective in the offset on all of `[0, 10^20)`, but the
decode direction round-trips only for offsets below `2^64`, because the
parser is 64-bit. -/
theorem keyMapperBijection (p : Key) (o : Nat) :
    getObjectKey p o = p ++ '/' :: sprintf020 o ∧
    (o < 10 ^ 20 → (sprintf020 o).length = 20 ∧ charsToNat (sprintf020 o) = o) ∧
    (o < 18446744073709551616 →
      getOffsetFromKey p (getObjectKey p o) = some (Except.ok o)) ∧
    (∀ o2, o < 10 ^ 20 → o2 < 10 ^ 20 →
      getObjectKey p o = getObjectKey p o2 → o = o2) := by
  refine ⟨rfl, fun h => ⟨sprintf020_length o h, charsToNat_sprintf020 o⟩, ?_, ?_⟩
  · intro h
    rw [getOffsetFromKey_getObjectKey, parseUint64_sprintf020, if_pos h]
  · intro o2 _ _ he
    exact getObjectKey_inj p o o2 he

/-- Witness for C7 (amended) at prefix `"ab"`, offset 1. -/
theorem keyMapperBijection_witness :
    ((1 : Nat) < 10 ^ 20 ∧ (sprintf020 1).length = 20 ∧ charsToNat (sprintf020 1) = 1) ∧
    ((1 : Nat) < 18446744073709551616 ∧
      getOffsetFromKey ['a', 'b'] (getObjectKey ['a', 'b'] 1) = some (Except.ok 1)) ∧
    ((1 : Nat) = 1) :=
  ⟨⟨by norm_num, (keyMapperBijection ['a', 'b'] 1).2.1 (by norm_num)⟩,
   ⟨by norm_num, (keyMapperBijection ['a', 'b'] 1).2.2.1 (by norm_num)⟩,
   (keyMapperBijection ['a', 'b'] 1).2.2.2 1 (by norm_num) (by norm_num) rfl⟩

/-- C9: `getOffsetFromKey` is not total.  A key no longer than the prefix
makes the Go slice `key[len(prefix)+1:]` panic (modelled as `none`); only
keys of length at least `len(prefix)+1` reach the parser and can produce
the `KeyFormat` error. -/
theorem keySlicePanic (p k : Key) :
    (k.length ≤ p.length → getOffsetFromKey p k = none) ∧
    (p.length + 1 ≤ k.length → ∃ r, getOffsetFromKey p k = some r) := by
  constructor
  · intro h
    rw [getOffsetFromKey, if_pos (by omega)]
  · intro h
    rw [getOffsetFromKey, if_neg (by omega)]
    exact ⟨_, rfl⟩

/-- Witness for C9: a 2-character key against a 2-character prefix panics,
a 3-character key parses (here: to a KeyFormat error on the empty rest). -/
theorem keySlicePanic_witness :
    (List.length ['a', 'b'] ≤ List.length ['a', 'b'] ∧
      getOffsetFromKey ['a', 'b'] ['a', 'b'] = none) ∧
    (List.length ['a', 'b'] + 1 ≤ List.length ['a', 'b', '/'] ∧
      ∃ r, getOffsetFromKey ['a', 'b'] ['a', 'b', '/'] = some r) :=
  ⟨⟨by decide, (keySlicePanic ['a', 'b'] ['a', 'b']).1 (by decide)⟩,
   ⟨by decide, (keySlicePanic ['a', 'b'] ['a', 'b', '/']).2 (by decide)⟩⟩

/-- C10: `getOffsetFromKey` never looks at the leading `len(prefix)+1`
characters: the key `"xq-123"`, which does not start with the prefix
`"ab"` followed by `"/"`, still decodes to offset 123. -/
theorem noPrefixInspection :
    getOffsetFromKey ['a', 'b'] ['x', 'q', '-', '1', '2', '3'] = some (Except.ok 123) ∧
    List.take 3 ['x', 'q', '-', '1', '2', '3'] ≠ ['a', 'b', '/'] := by
  constructor
  · decide
  · decide

/-! ### Driver lemmas -/

theorem Read_wal {σ : Type} (getF : σ → Key → GetResp × σ) (st : σ) (w : S3WAL) (o : Nat) :
    (Read getF st w o).2.1 = w := by
  simp only [Read]
  cases hg : getF st (getObjectKey w.pfx o) with
  | mk r st2 =>
    cases r with
    | found data =>
      cases hv : readValidate data o <;> simp [hv]
    | errored => simp

theorem Append_err_wal {σ : Type} (putF : σ → Key → Bytes → PutResp × σ) (st : σ)
    (w : S3WAL) (d : Bytes) (e : WalErr) (h : (Append putF st w d).1 = Except.error e) :
    (Append putF st w d).2.1 = w := by
  simp only [Append] at h ⊢
  split at h
  · rfl
  · exact nomatch h

theorem LastRecord_scanOk {σ : Type} (getF : σ → Key → GetResp × σ)
    (pages : List (Except Unit (List Key))) (st : σ) (w : S3WAL) (m : Nat)
    (hm : m ≠ 0) (h : scanPages w.pfx pages 0 = some (Except.ok m)) :
    ∃ r st2, LastRecord getF pages st w = some (r, { w with length := m }, st2) := by
  refine ⟨(Read getF st { w with length := m } m).1,
    (Read getF st { w with length := m } m).2.2, ?_⟩
  simp only [LastRecord, h, if_neg hm]
  exact congrArg some (Prod.ext_iff.mpr ⟨rfl,
    Prod.ext_iff.mpr ⟨Read_wal getF st { w with length := m } m, rfl⟩⟩)


theorem lookupStore_cons_ne (st : Store) (k1 k : Key) (v : Bytes) (h : ¬ (k1 = k)) :
    lookupStore ((k1, v) :: st) k = lookupStore st k := by
  simp only [lookupStore, List.find?_cons_of_neg]
  simp [h]

theorem appendN_spec : ∀ (ds : List Bytes) (st : Store) (w : S3WAL),
    w.length + ds.length < 18446744073709551616 →
    (∀ o, w.length < o → o ≤ w.length + ds.length →
      lookupStore st (getObjectKey w.pfx o) = none) →
    (appendN st w ds).1 = (List.range' (w.length + 1) ds.length).map Except.ok ∧
    (appendN st w ds).2.1 = { w with length := w.length + ds.length } := by
  intro ds
  induction ds with
  | nil =>
    intro st w _ _
    exact ⟨rfl, by cases w with | mk bn p l => rfl⟩
  | cons d rest ih =>
    intro st w hlt hnone
    have hmod : (w.length + 1) % 18446744073709551616 = w.length + 1 := by
      apply Nat.mod_eq_of_lt
      simp only [List.length_cons] at hlt
      omega
    have hput : condPut st (getObjectKey w.pfx (w.length + 1)) (prepareBody (w.length + 1) d)
        = (PutResp.ok, (getObjectKey w.pfx (w.length + 1), prepareBody (w.length + 1) d) :: st) := by
      have hn := hnone (w.length + 1) (by omega) (by simp only [List.length_cons]; omega)
      simp [condPut, hn]
    have happ : Append condPut st w d =
        (Except.ok (w.length + 1), { w with length := w.length + 1 },
         (getObjectKey w.pfx (w.length + 1), prepareBody (w.length + 1) d) :: st) := by
      simp only [Append, hmod, hput]
    have hlen2 : w.length + 1 + rest.length < 18446744073709551616 := by
      simp only [List.length_cons] at hlt
      omega
    have hnone2 : ∀ o, w.length + 1 < o → o ≤ w.length + 1 + rest.length →
        lookupStore ((getObjectKey w.pfx (w.length + 1), prepareBody (w.length + 1) d) :: st)
          (getObjectKey w.pfx o) = none := by
      intro o h1 h2
      rw [lookupStore_cons_ne]
      · exact hnone o (by omega) (by simp only [List.length_cons]; omega)
      · intro he
        have := getObjectKey_inj _ _ _ he
        omega
    have hrec := ih ((getObjectKey w.pfx (w.length + 1), prepareBody (w.length + 1) d) :: st)
      { w with length := w.length + 1 } hlen2 hnone2
    simp only [appendN, happ]
    constructor
    · show Except.ok (w.length + 1) :: (appendN _ _ rest).1 = _
      rw [hrec.1]
      rfl
    · show (appendN _ _ rest).2.1 = _
      rw [hrec.2]
      simp only [List.length_cons]
      congr 1
      omega


theorem scanKeys_allZero (p : Key) : ∀ (ks : List Key) (m : Nat),
    (∀ k ∈ ks, getOffsetFromKey p k = some (Except.ok 0)) →
    scanKeys p ks m = some (Except.ok m) := by
  intro ks
  induction ks with
  | nil => intro m _; rfl
  | cons k ks ih =>
    intro m hall
    have hk := hall k (List.mem_cons_self k ks)
    simp only [scanKeys, hk]
    have h0 : (if 0 > m then 0 else m) = m := by simp
    rw [h0]
    exact ih m (fun x hx => hall x (List.mem_cons_of_mem k hx))

theorem scanKeys_ok (p : Key) : ∀ (ks : List Key) (m : Nat),
    (∀ k ∈ ks, ∃ v, getOffsetFromKey p k = some (Except.ok v)) →
    ∃ m2, scanKeys p ks m = some (Except.ok m2) := by
  intro ks
  induction ks with
  | nil => intro m _; exact ⟨m, rfl⟩
  | cons k ks ih =>
    intro m hall
    obtain ⟨v, hv⟩ := hall k (List.mem_cons_self k ks)
    simp only [scanKeys, hv]
    exact ih _ (fun x hx => hall x (List.mem_cons_of_mem k hx))

theorem scanKeys_err (p : Key) : ∀ (ks : List Key) (m : Nat),
    (∀ k ∈ ks, ∃ r, getOffsetFromKey p k = some r) →
    (∃ k ∈ ks, ∃ e, getOffsetFromKey p k = some (Except.error e)) →
    scanKeys p ks m = some (Except.error WalErr.keyFormat) := by
  intro ks
  induction ks with
  | nil =>
    intro m _ hbad
    simp at hbad
  | cons k ks ih =>
    intro m hdef hbad
    obtain ⟨r, hr⟩ := hdef k (List.mem_cons_self k ks)
    cases r with
    | error e => simp only [scanKeys, hr]
    | ok v =>
      simp only [scanKeys, hr]
      apply ih _ (fun x hx => hdef x (List.mem_cons_of_mem k hx))
      obtain ⟨k2, hk2, e, he⟩ := hbad
      rcases List.mem_cons.mp hk2 with rfl | hk2tail
      · rw [hr] at he
        simp at he
      · exact ⟨k2, hk2tail, e, he⟩

theorem scanPages_allZero (p : Key) : ∀ (kss : List (List Key)) (m : Nat),
    (∀ ks ∈ kss, ∀ k ∈ ks, getOffsetFromKey p k = some (Except.ok 0)) →
    scanPages p (kss.map Except.ok) m = some (Except.ok m) := by
  intro kss
  induction kss with
  | nil => intro m _; rfl
  | cons ks kss ih =>
    intro m hall
    simp only [List.map_cons, scanPages,
      scanKeys_allZero p ks m (hall ks (List.mem_cons_self ks kss))]
    exact ih m (fun x hx => hall x (List.mem_cons_of_mem ks hx))

theorem scanPages_err (p : Key) : ∀ (kss : List (List Key)) (m : Nat),
    (∀ ks ∈ kss, ∀ k ∈ ks, ∃ r, getOffsetFromKey p k = some r) →
    (∃ ks ∈ kss, ∃ k ∈ ks, ∃ e, getOffsetFromKey p k = some (Except.error e)) →
    scanPages p (kss.map Except.ok) m = some (Except.error WalErr.keyFormat) := by
  intro kss
  induction kss with
  | nil =>
    intro m _ hbad
    simp at hbad
  | cons ks kss ih =>
    intro m hdef hbad
    by_cases hex : ∃ k ∈ ks, ∃ e, getOffsetFromKey p k = some (Except.error e)
    · simp only [List.map_cons, scanPages,
        scanKeys_err p ks m (hdef ks (List.mem_cons_self ks kss)) hex]
    · have hko : ∀ k ∈ ks, ∃ v, getOffsetFromKey p k = some (Except.ok v) := by
        intro k hk
        obtain ⟨r, hr⟩ := hdef ks (List.mem_cons_self ks kss) k hk
        cases r with
        | error e => exact absurd ⟨k, hk, e, hr⟩ hex
        | ok v => exact ⟨v, hr⟩
      obtain ⟨m2, hm2⟩ := scanKeys_ok p ks m hko
      simp only [List.map_cons, scanPages, hm2]
      apply ih m2 (fun x hx => hdef x (List.mem_cons_of_mem ks hx))
      obtain ⟨ks2, hks2, k2, hk2, e, he⟩ := hbad
      rcases List.mem_cons.mp hks2 with rfl | htail
      · exact absurd ⟨k2, hk2, e, he⟩ hex
      · exact ⟨ks2, htail, k2, hk2, e, he⟩


/-! ### Claims C1, C2, C4, C8: the driver -/

set_option maxRecDepth 8000

/-- C1 (code bug): `LastRecord` builds `ListObjectsV2Input` with only the
bucket — no `Prefix` filter — so keys outside the namespace influence the
result.  With only the namespace record present, `LastRecord` returns it;
adding one unrelated key `"cfg"` to the same bucket makes the identical
call abort with a key-format error. -/
theorem listingIgnoresNamespaceBug :
    LastRecord getOfStore
        (listPagesOfStore [(getObjectKey ['a', 'b'] 1, prepareBody 1 [7, 7])])
        [(getObjectKey ['a', 'b'] 1, prepareBody 1 [7, 7])] (NewS3WAL ['x'] ['a', 'b']) =
      some (Except.ok ⟨1, [7, 7]⟩, ⟨['x'], ['a', 'b'], 1⟩,
        [(getObjectKey ['a', 'b'] 1, prepareBody 1 [7, 7])]) ∧
    LastRecord getOfStore
        (listPagesOfStore
          [(getObjectKey ['a', 'b'] 1, prepareBody 1 [7, 7]), (['c', 'f', 'g'], [5])])
        [(getObjectKey ['a', 'b'] 1, prepareBody 1 [7, 7]), (['c', 'f', 'g'], [5])]
        (NewS3WAL ['x'] ['a', 'b']) =
      some (Except.error WalErr.keyFormat, NewS3WAL ['x'] ['a', 'b'],
        [(getObjectKey ['a', 'b'] 1, prepareBody 1 [7, 7]), (['c', 'f', 'g'], [5])]) := by
  constructor
  · decide
  · decide

/-- C2 counterexample: over a bucket holding one (malformed) namespace
record, `LastRecord` returns an error yet has already advanced the cursor
from 0 to 1, refuting "a LastRecord that returns an error leaves `length`
unchanged". -/
theorem cursorCounterexample :
    (NewS3WAL ['x'] ['a', 'b']).length = 0 ∧
    LastRecord getOfStore (listPagesOfStore [(getObjectKey ['a', 'b'] 1, [])])
        [(getObjectKey ['a', 'b'] 1, [])] (NewS3WAL ['x'] ['a', 'b']) =
      some (Except.error WalErr.malformed, ⟨['x'], ['a', 'b'], 1⟩,
        [(getObjectKey ['a', 'b'] 1, [])]) := by
  constructor
  · rfl
  · decide

/-- C2 (amended): a failed `Append` leaves the cursor untouched and `Read`
never touches it; `LastRecord` leaves the cursor untouched when the scan
itself fails or finds an empty log, but once the scan succeeds with
maximum `m > 0` it sets `length = m` before the final `Read`, so a
`LastRecord` whose final `Read` fails still returns with `length = m`. -/
theorem cursorOnlyOnSuccess :
    (∀ (σ : Type) (putF : σ → Key → Bytes → PutResp × σ) (st : σ) (w : S3WAL)
        (d : Bytes) (e : WalErr), (Append putF st w d).1 = Except.error e →
        ((Append putF st w d).2.1).length = w.length) ∧
    (∀ (σ : Type) (getF : σ → Key → GetResp × σ) (st : σ) (w : S3WAL) (o : Nat),
        (Read getF st w o).2.1 = w) ∧
    (∀ (σ : Type) (getF : σ → Key → GetResp × σ) (pages : List (Except Unit (List Key)))
        (st : σ) (w : S3WAL) (e : WalErr),
        scanPages w.pfx pages 0 = some (Except.error e) →
        LastRecord getF pages st w = some (Except.error e, w, st)) ∧
    (∀ (σ : Type) (getF : σ → Key → GetResp × σ) (pages : List (Except Unit (List Key)))
        (st : σ) (w : S3WAL),
        scanPages w.pfx pages 0 = some (Except.ok 0) →
        LastRecord getF pages st w = some (Except.error WalErr.emptyLog, w, st)) ∧
    (∀ (σ : Type) (getF : σ → Key → GetResp × σ) (pages : List (Except Unit (List Key)))
        (st : σ) (w : S3WAL) (m : Nat), m ≠ 0 →
        scanPages w.pfx pages 0 = some (Except.ok m) →
        ∃ r st2, LastRecord getF pages st w = some (r, { w with length := m }, st2)) := by
  refine ⟨?_, ?_, ?_, ?_, ?_⟩
  · intro σ putF st w d e h
    rw [Append_err_wal putF st w d e h]
  · intro σ getF st w o
    exact Read_wal getF st w o
  · intro σ getF pages st w e h
    simp [LastRecord, h]
  · intro σ getF pages st w h
    simp [LastRecord, h]
  · exact fun σ getF pages st w m hm h => LastRecord_scanOk getF pages st w m hm h

/-- Witness for C2 (amended): each conjunct at concrete inputs. -/
theorem cursorOnlyOnSuccess_witness :
    ((Append (fun (st : Store) (_ : Key) (_ : Bytes) => (PutResp.errored, st)) []
        (NewS3WAL ['x'] ['a', 'b']) [1]).1 = Except.error WalErr.putFailed ∧
      ((Append (fun (st : Store) (_ : Key) (_ : Bytes) => (PutResp.errored, st)) []
        (NewS3WAL ['x'] ['a', 'b']) [1]).2.1).length = (NewS3WAL ['x'] ['a', 'b']).length) ∧
    ((Read getOfStore ([] : Store) (NewS3WAL ['x'] ['a', 'b']) 5).2.1 =
      NewS3WAL ['x'] ['a', 'b']) ∧
    (scanPages (NewS3WAL ['x'] ['a', 'b']).pfx [Except.error ()] 0 =
        some (Except.error WalErr.listFailed) ∧
      LastRecord getOfStore [Except.error ()] ([] : Store) (NewS3WAL ['x'] ['a', 'b']) =
        some (Except.error WalErr.listFailed, NewS3WAL ['x'] ['a', 'b'], [])) ∧
    (scanPages (NewS3WAL ['x'] ['a', 'b']).pfx [] 0 = some (Except.ok 0) ∧
      LastRecord getOfStore [] ([] : Store) (NewS3WAL ['x'] ['a', 'b']) =
        some (Except.error WalErr.emptyLog, NewS3WAL ['x'] ['a', 'b'], [])) ∧
    ((1 : Nat) ≠ 0 ∧
      scanPages (NewS3WAL ['x'] ['a', 'b']).pfx [Except.ok [getObjectKey ['a', 'b'] 1]] 0 =
        some (Except.ok 1) ∧
      ∃ r st2, LastRecord getOfStore [Except.ok [getObjectKey ['a', 'b'] 1]] ([] : Store)
          (NewS3WAL ['x'] ['a', 'b']) =
        some (r, { NewS3WAL ['x'] ['a', 'b'] with length := 1 }, st2)) :=
  ⟨⟨by rfl, cursorOnlyOnSuccess.1 Store _ [] (NewS3WAL ['x'] ['a', 'b']) [1]
      WalErr.putFailed (by rfl)⟩,
   cursorOnlyOnSuccess.2.1 Store getOfStore [] (NewS3WAL ['x'] ['a', 'b']) 5,
   ⟨by rfl, cursorOnlyOnSuccess.2.2.1 Store getOfStore [Except.error ()] []
      (NewS3WAL ['x'] ['a', 'b']) WalErr.listFailed (by rfl)⟩,
   ⟨by rfl, cursorOnlyOnSuccess.2.2.2.1 Store getOfStore [] []
      (NewS3WAL ['x'] ['a', 'b']) (by rfl)⟩,
   ⟨by decide, by decide,
    cursorOnlyOnSuccess.2.2.2.2 Store getOfStore [Except.ok [getObjectKey ['a', 'b'] 1]] []
      (NewS3WAL ['x'] ['a', 'b']) 1 (by decide) (by decide)⟩⟩

/-- C4: from a fresh driver (`length = 0`) over a namespace with no stored
record, the results of `N` sequential `Append` calls are exactly
`ok 1, ok 2, ..., ok N` in order and the cursor finishes at `N`; and any
successful `Append` returns `candidate = length + 1` (uint64) and advances
the cursor to exactly that value. -/
theorem appendMonotonicity :
    (∀ (bn p : Key) (st : Store) (ds : List Bytes),
      ds.length < 18446744073709551616 →
      (∀ o, 1 ≤ o → o ≤ ds.length → lookupStore st (getObjectKey p o) = none) →
      (appendN st (NewS3WAL bn p) ds).1 = (List.range' 1 ds.length).map Except.ok ∧
      (appendN st (NewS3WAL bn p) ds).2.1.length = ds.length) ∧
    (∀ (σ : Type) (putF : σ → Key → Bytes → PutResp × σ) (st : σ) (w : S3WAL)
        (d : Bytes) (n : Nat), (Append putF st w d).1 = Except.ok n →
      n = (w.length + 1) % 18446744073709551616 ∧
      (Append putF st w d).2.1.length = n) := by
  constructor
  · intro bn p st ds hlen hnone
    have hs := appendN_spec ds st (NewS3WAL bn p)
      (by simpa [NewS3WAL] using hlen)
      (by intro o h1 h2; exact hnone o h1 (by simpa [NewS3WAL] using h2))
    refine ⟨?_, ?_⟩
    · have := hs.1
      simpa [NewS3WAL] using this
    · rw [hs.2]
      simp [NewS3WAL]
  · intro σ putF st w d n h
    simp only [Append] at h ⊢
    split at h
    · exact nomatch h
    · have hn : (w.length + 1) % 18446744073709551616 = n := by simpa using h
      subst hn
      exact ⟨rfl, rfl⟩

/-- Witness for C4: three appends into an empty bucket yield offsets
1, 2, 3; a single successful append advances the cursor to its returned
offset. -/
theorem appendMonotonicity_witness :
    (List.length [[1], [2], [3]] < 18446744073709551616 ∧
      (appendN [] (NewS3WAL ['x'] ['a', 'b']) [[1], [2], [3]]).1 =
        [Except.ok 1, Except.ok 2, Except.ok 3] ∧
      (appendN [] (NewS3WAL ['x'] ['a', 'b']) [[1], [2], [3]]).2.1.length = 3) ∧
    ((Append condPut [] (NewS3WAL ['x'] ['a', 'b']) [9]).1 = Except.ok 1 ∧
      (1 : Nat) = ((NewS3WAL ['x'] ['a', 'b']).length + 1) % 18446744073709551616 ∧
      (Append condPut [] (NewS3WAL ['x'] ['a', 'b']) [9]).2.1.length = 1) :=
  ⟨⟨by norm_num,
    (appendMonotonicity.1 ['x'] ['a', 'b'] [] [[1], [2], [3]] (by norm_num)
      (fun o _ _ => rfl)).1,
    (appendMonotonicity.1 ['x'] ['a', 'b'] [] [[1], [2], [3]] (by norm_num)
      (fun o _ _ => rfl)).2⟩,
   ⟨by rfl,
    (appendMonotonicity.2 Store condPut [] (NewS3WAL ['x'] ['a', 'b']) [9] 1 (by rfl)).1,
    (appendMonotonicity.2 Store condPut [] (NewS3WAL ['x'] ['a', 'b']) [9] 1 (by rfl)).2⟩⟩

/-- C8: `LastRecord`'s error contract over a listing whose keys are all
long enough to be sliced (no panic): if every key decodes and at least one
decodes to an error, the whole call aborts with the key-format error and
no record; if every key decodes to offset 0 (in particular if there are no
keys), the call fails with the empty-log error and no record. -/
theorem lastRecordErrorContract {σ : Type} (getF : σ → Key → GetResp × σ)
    (kss : List (List Key)) (st : σ) (w : S3WAL) :
    ((∀ ks ∈ kss, ∀ k ∈ ks, ∃ r, getOffsetFromKey w.pfx k = some r) →
      (∃ ks ∈ kss, ∃ k ∈ ks, ∃ e, getOffsetFromKey w.pfx k = some (Except.error e)) →
      LastRecord getF (kss.map Except.ok) st w =
        some (Except.error WalErr.keyFormat, w, st)) ∧
    ((∀ ks ∈ kss, ∀ k ∈ ks, getOffsetFromKey w.pfx k = some (Except.ok 0)) →
      LastRecord getF (kss.map Except.ok) st w =
        some (Except.error WalErr.emptyLog, w, st)) := by
  constructor
  · intro hdef hbad
    simp [LastRecord, scanPages_err w.pfx kss 0 hdef hbad]
  · intro hzero
    simp [LastRecord, scanPages_allZero w.pfx kss 0 hzero]

/-- Witness for C8: a listed key `"ab/"` (empty digit part) aborts with
the key-format error; a listing whose only key decodes to offset 0 fails
with the empty-log error. -/
theorem lastRecordErrorContract_witness :
    (LastRecord getOfStore ([[['a', 'b', '/']]].map Except.ok) ([] : Store)
        (NewS3WAL ['x'] ['a', 'b']) =
      some (Except.error WalErr.keyFormat, NewS3WAL ['x'] ['a', 'b'], [])) ∧
    (LastRecord getOfStore ([[getObjectKey ['a', 'b'] 0]].map Except.ok) ([] : Store)
        (NewS3WAL ['x'] ['a', 'b']) =
      some (Except.error WalErr.emptyLog, NewS3WAL ['x'] ['a', 'b'], [])) :=
  ⟨(lastRecordErrorContract getOfStore [[['a', 'b', '/']]] [] (NewS3WAL ['x'] ['a', 'b'])).1
    (by intro ks hks k hk
        simp only [List.mem_singleton] at hks
        subst hks
        simp only [List.mem_singleton] at hk
        subst hk
        exact ⟨Except.error ParseErr.invalid, by decide⟩)
    ⟨[['a', 'b', '/']], by decide, ['a', 'b', '/'], by decide, ParseErr.invalid, by decide⟩,
   (lastRecordErrorContract getOfStore [[getObjectKey ['a', 'b'] 0]] []
      (NewS3WAL ['x'] ['a', 'b'])).2
    (by intro ks hks k hk
        simp only [List.mem_singleton] at hks
        subst hks
        simp only [List.mem_singleton] at hk
        subst hk
        decide)⟩

end S3Log
